import Mathlib

/-!
Verification of the candidate-generation and constrained-refinement core of the
Cornucopia curve sketching library (`PrimitiveFitter.cpp`), together with the
`Polyline::paramToIdx` boundary behaviour exercised by `PolylineTest.cpp`.

Real arithmetic (C++ `double`) is embedded as `ℚ`; the external collaborators
(per-type incremental fitters, error computer, box-constrained solver, polyline
metrics) are abstracted as oracle functions carried in an environment record,
and the control flow of `DefaultPrimitiveFitter::_run` is transcribed as a
structural recursion over the list of sample indices the circulator yields.
-/

/-- Read a parameter vector entry, `VectorXd` style access `v(n)`. -/
def getP (l : List ℚ) (n : Nat) : ℚ := l.getD n 0

/-- Write a parameter vector entry. -/
def setP (l : List ℚ) (n : Nat) (a : ℚ) : List ℚ := l.set n a

/-- Modelled from the spec: the parameter vector reserves three indices with
fixed semantics (`CurvePrimitive.h` is not under `src/`); the concrete values
match the library layout where slots 0..2 hold position and angle. -/
def LENGTH : Nat := 3

/-- Modelled from the spec: fixed CURVATURE parameter slot. -/
def CURVATURE : Nat := 4

/-- Modelled from the spec: fixed DCURVATURE (curvature derivative) slot. -/
def DCURVATURE : Nat := 5

/-- A geometric primitive: a type tag (Line = 0, Arc = 1, Clothoid = 2) and its
raw parameter vector.  `CurvePrimitive` in the source is polymorphic; here the
tag plus the vector carry all the data the core consumes. -/
structure CurvePrimitive where
  type : Nat
  params : List ℚ
deriving DecidableEq, Repr

/-- Modelled from the spec: the fitted length of a primitive is its LENGTH
parameter (accessor `CurvePrimitive::length()` is not under `src/`). -/
def CurvePrimitive.length (c : CurvePrimitive) : ℚ := getP c.params LENGTH

/-- Modelled from the spec: curvature at the start of the primitive — zero for
a Line, the CURVATURE parameter otherwise (`startCurvature()` is not under
`src/`). -/
def CurvePrimitive.startCurvature (c : CurvePrimitive) : ℚ :=
  if c.type = 0 then 0 else getP c.params CURVATURE

/-- Modelled from the spec: curvature at the end of the primitive — zero for a
Line, constant for an Arc, and start curvature plus length times curvature
rate for a Clothoid (`endCurvature()` is not under `src/`). -/
def CurvePrimitive.endCurvature (c : CurvePrimitive) : ℚ :=
  if c.type = 0 then 0
  else if c.type = 1 then getP c.params CURVATURE
  else getP c.params CURVATURE + getP c.params LENGTH * getP c.params DCURVATURE

/-- The candidate primitive fit record, `FitPrimitive` in `PrimitiveFitter.h`. -/
structure FitPrimitive where
  curve : CurvePrimitive
  startIdx : Nat
  endIdx : Nat
  numPts : Nat
  startCurvSign : Int
  endCurvSign : Int
  error : ℚ
deriving DecidableEq, Repr

/-- A box constraint handed to the least-squares solver: parameter index, bound
value, allowed sign, mirroring the `LSBoxConstraint` constructor arguments. -/
structure LSBoxConstraint where
  paramIdx : Nat
  value : ℚ
  sign : Int
deriving DecidableEq, Repr

/-- Modelled from the spec: a box constraint restricts one parameter to lie on
one side of the bound; positive sign means at least the bound, negative sign at
most the bound, zero pins the parameter (`Solver.h` is not under `src/`). -/
def satisfiesConstraintB (x : List ℚ) (cst : LSBoxConstraint) : Bool :=
  if 0 < cst.sign then decide (cst.value ≤ getP x cst.paramIdx)
  else if cst.sign < 0 then decide (getP x cst.paramIdx ≤ cst.value)
  else decide (getP x cst.paramIdx = cst.value)

/-- The constraint list built by `DefaultPrimitiveFitter::adjustPrimitive`:
a minimum-length constraint always, and, when inflection accounting is on,
a curvature-sign constraint for Arc and Clothoid and an end-curvature-sign
constraint for Clothoid. -/
def adjustConstraints (inflectionAccounting : Bool) (primitive : FitPrimitive) :
    List LSBoxConstraint :=
  let cs := [LSBoxConstraint.mk LENGTH (primitive.curve.length * (1 / 2)) 1]
  if inflectionAccounting then
    let cs2 :=
      if 1 ≤ primitive.curve.type then
        cs ++ [LSBoxConstraint.mk CURVATURE 0 primitive.startCurvSign]
      else cs
    if primitive.curve.type = 2 then
      cs2 ++ [LSBoxConstraint.mk DCURVATURE 0 primitive.endCurvSign]
    else cs2
  else cs

/-- `OneCurveProblem::params`: for a Clothoid the working vector stores end
curvature in the DCURVATURE slot; other types pass through. -/
def OneCurveProblem.params (curve : CurvePrimitive) : List ℚ :=
  if curve.type ≠ 2 then curve.params
  else
    setP curve.params DCURVATURE
      (getP curve.params CURVATURE + getP curve.params LENGTH * getP curve.params DCURVATURE)

/-- `OneCurveProblem::setParams`: inverse of the reparametrization — the raw
DCURVATURE entry is recovered as (end curvature − start curvature) / length. -/
def OneCurveProblem.setParams (curve : CurvePrimitive) (x : List ℚ) : CurvePrimitive :=
  if curve.type ≠ 2 then { curve with params := x }
  else
    let xm := setP x DCURVATURE ((getP x DCURVATURE - getP x CURVATURE) / getP x LENGTH)
    { curve with params := xm }

/-- Scale a Jacobian column, Eigen `col *= s`. -/
def colScale (v : List ℚ) (s : ℚ) : List ℚ := v.map (fun a => a * s)

/-- Subtract Jacobian columns entrywise, Eigen `col -= col`. -/
def colSub (a b : List ℚ) : List ℚ := List.zipWith (fun p q => p - q) a b

/-- The chain-rule transformation of the raw residual Jacobian performed by
`OneCurveProblem::eval` for a Clothoid, transcribed statement by statement; the
Jacobian is represented by its columns.  Non-Clothoid Jacobians pass through. -/
def OneCurveProblem.eval (curve : CurvePrimitive) (x : List ℚ)
    (errDer : Nat → List ℚ) : Nat → List ℚ :=
  if curve.type = 2 then
    let invLength := 1 / getP x LENGTH
    let d1 := Function.update errDer DCURVATURE (colScale (errDer DCURVATURE) invLength)
    let d2 := Function.update d1 CURVATURE (colSub (d1 CURVATURE) (d1 DCURVATURE))
    let dcurvature := (getP x DCURVATURE - getP x CURVATURE) * invLength
    Function.update d2 LENGTH (colSub (d2 LENGTH) (colScale (d2 DCURVATURE) dcurvature))
  else errDer

/-- Total embedding of `OneCurveProblem::setParams` making the division-by-zero
branch explicit: the C++ code divides by the LENGTH entry with no guard. -/
def OneCurveProblem.setParamsChecked (curve : CurvePrimitive) (x : List ℚ) :
    Option CurvePrimitive :=
  if curve.type = 2 ∧ getP x LENGTH = 0 then none
  else some (OneCurveProblem.setParams curve x)

/-- Total embedding of `OneCurveProblem::eval` making the division-by-zero
branch explicit. -/
def OneCurveProblem.evalChecked (curve : CurvePrimitive) (x : List ℚ)
    (errDer : Nat → List ℚ) : Option (Nat → List ℚ) :=
  if curve.type = 2 ∧ getP x LENGTH = 0 then none
  else some (OneCurveProblem.eval curve x errDer)

/-- Modelled from the spec: `Polyline::paramToIdx` is not under `src/` (only
`PolylineTest.cpp` is).  The polyline stores a non-decreasing cumulative
arc-length table with one entry per sample; `paramToIdx` returns the
`upper_bound` rank of the parameter in that table, which is monotone
non-decreasing in the parameter as §6 of the spec requires. -/
def paramToIdx (cumlen : List ℚ) (param : ℚ) : Int :=
  (cumlen.countP (fun c => decide (c ≤ param)) : Nat)

/-- Environment for `DefaultPrimitiveFitter::_run`: the polyline metrics,
corner flags and configuration it reads, plus oracles for the external
collaborators (the per-type incremental fitters, the clothoid fitter's
zero-curvature construction, the error computer, and the outcome of the
box-constrained solve performed by `adjustPrimitive`).  A fitter's state is a
function of the start index and the count of points fed, so its current best
primitive is keyed by those. -/
structure FitterEnv where
  size : Nat
  closed : Bool
  corners : Nat → Bool
  errorThreshold : ℚ
  inflectionAccounting : Bool
  needType : Nat → Bool
  adjust : Bool
  getPrimitive : Nat → Nat → Nat → CurvePrimitive
  zeroCurvCurve : Nat → Nat → ℚ → CurvePrimitive
  adjustCurve : CurvePrimitive → Nat → Nat → Int → Int → CurvePrimitive
  computeError : CurvePrimitive → Nat → Nat → ℚ
  lengthFromTo : Nat → Nat → ℚ
  idxToParam : Nat → ℚ

/-- Modelled from the spec: the indices yielded by `pts.circulator(i)` — the
whole cycle starting at `i` for a closed sequence, the tail from `i` for an
open one (`VectorC` is not under `src/`; §6 gives the traversal contract). -/
def circIndices (env : FitterEnv) (i : Nat) : List Nat :=
  if env.closed then (List.range env.size).map (fun k => (i + k) % env.size)
  else (List.range (env.size - i)).map (fun k => i + k)

/-- The in-place solver write-back of `adjustPrimitive`: the candidate's curve
is replaced by the solver's output, a function of the curve, the span and the
curvature signs that build the constraints. -/
def adjustFit (env : FitterEnv) (fit : FitPrimitive) : FitPrimitive :=
  let solved := env.adjustCurve fit.curve fit.startIdx fit.endIdx fit.startCurvSign fit.endCurvSign
  { fit with curve := solved }

/-- The candidate materialized at start `i`, type `t`, after `c` points ending
at sample `idx`: lines 145–160 of `PrimitiveFitter.cpp` (sign tagging, the
optional in-place adjustment, then the error measurement). -/
def mainFitAt (env : FitterEnv) (i t c idx : Nat) : FitPrimitive :=
  let curve := env.getPrimitive t i c
  let fit0 : FitPrimitive :=
    { curve := curve, startIdx := i, endIdx := idx, numPts := c,
      startCurvSign := if 0 ≤ curve.startCurvature then 1 else -1,
      endCurvSign := if 0 ≤ curve.endCurvature then 1 else -1,
      error := 0 }
  let fit1 := if env.adjust then adjustFit env fit0 else fit0
  { fit1 with error := env.computeError fit1.curve i fit1.endIdx }

/-- The line-mirroring of lines 169–174: both curvature signs negated. -/
def flipSigns (fit : FitPrimitive) : FitPrimitive :=
  { fit with startCurvSign := -fit.startCurvSign, endCurvSign := -fit.endCurvSign }

/-- The candidate value after the optional line mirroring, which in the source
mutates `fit` before the inflection-split test reads its signs. -/
def flipFitAt (env : FitterEnv) (i t c idx : Nat) : FitPrimitive :=
  if t = 0 ∧ env.inflectionAccounting then flipSigns (mainFitAt env i t c idx)
  else mainFitAt env i t c idx

/-- The first inflection-split candidate (zero curvature at the span start),
lines 181–190: built on the clothoid fitter's state, sign-tagged from its own
end curvature with a strict comparison, adjusted, then measured. -/
def splitFitA (env : FitterEnv) (i t c idx : Nat) : FitPrimitive :=
  let fitF := flipFitAt env i t c idx
  let startNoCurv := env.zeroCurvCurve i (if t = 2 then c else 0) 0
  let s1 : Int := if 0 < startNoCurv.endCurvature then 1 else -1
  let g0 := { fitF with curve := startNoCurv, startCurvSign := s1, endCurvSign := s1 }
  let g1 := if env.adjust then adjustFit env g0 else g0
  { g1 with error := env.computeError g1.curve i g1.endIdx }

/-- The second inflection-split candidate (zero curvature at the span end),
lines 198–204, built by further mutation of the first split candidate. -/
def splitFitB (env : FitterEnv) (i t c idx : Nat) : FitPrimitive :=
  let endNoCurv := env.zeroCurvCurve i (if t = 2 then c else 0)
      (env.idxToParam idx - env.idxToParam i)
  let s2 : Int := if 0 < endNoCurv.startCurvature then 1 else -1
  let h0 := { splitFitA env i t c idx with
      curve := endNoCurv, startCurvSign := s2, endCurvSign := s2 }
  let h1 := if env.adjust then adjustFit env h0 else h0
  { h1 with error := env.computeError h1.curve i h1.endIdx }

/-- Everything one loop iteration pushes into `out.primitives` once the main
candidate has passed the acceptance test: the candidate itself, the mirrored
line candidate when inflection accounting is on, and the two independently
threshold-tested inflection-split candidates when the (possibly mirrored)
candidate's end signs differ; split tests are strict (`<`, lines 192 and 206). -/
def chunkAt (env : FitterEnv) (i t c idx : Nat) : List FitPrimitive :=
  let fit := mainFitAt env i t c idx
  let fitF := flipFitAt env i t c idx
  let base := if t = 0 ∧ env.inflectionAccounting then [fit, fitF] else [fit]
  if fitF.startCurvSign ≠ fitF.endCurvSign ∧ env.inflectionAccounting then
    let length := env.lengthFromTo i idx
    let g := splitFitA env i t c idx
    let h := splitFitB env i t c idx
    (base ++ (if g.error / length < env.errorThreshold * env.errorThreshold then [g] else []))
      ++ (if h.error / length < env.errorThreshold * env.errorThreshold then [h] else [])
  else base

/-- The inner loop of `_run` for one (start index, type) pair, lines 135–215:
walks the circulator indices keeping the count of fed points, materializes a
candidate once the count reaches the type minimum, breaks on the early-exit
conditions.  Returns the emitted candidates and the list of indices whose loop
iteration was entered. -/
def runPair (env : FitterEnv) (i t : Nat) :
    List Nat → Nat → List FitPrimitive × List Nat
  | [], _ => ([], [])
  | idx :: rest, fitSoFar =>
    let c := fitSoFar + 1
    if env.needType t = false ∧ (t = 2 ∨ 3 + t ≤ c) then ([], [idx])
    else if 2 + t ≤ c then
      let fit := mainFitAt env i t c idx
      if env.errorThreshold * env.errorThreshold < fit.error / env.lengthFromTo i idx then
        ([], [idx])
      else
        let chunk := chunkAt env i t c idx
        if 1 < c ∧ env.corners idx = true then (chunk, [idx])
        else
          let r := runPair env i t rest c
          (chunk ++ r.1, idx :: r.2)
    else
      if 1 < c ∧ env.corners idx = true then ([], [idx])
      else
        let r := runPair env i t rest c
        (r.1, idx :: r.2)

/-- The candidates `_run` emits for the pair (start index `i`, type `t`). -/
def primitivesFor (env : FitterEnv) (i t : Nat) : List FitPrimitive :=
  (runPair env i t (circIndices env i) 0).1

/-- The sample indices whose loop iteration is entered for pair (`i`, `t`);
the count of fed points at the iteration of position `k` is `k + 1`. -/
def visitedPair (env : FitterEnv) (i t : Nat) : List Nat :=
  (runPair env i t (circIndices env i) 0).2

/-- Whether the candidate materialized at fed-point count `k` of pair
(`i`, `t`) fails the acceptance test of line 163. -/
def mainFailsAtB (env : FitterEnv) (i t k : Nat) : Bool :=
  match (circIndices env i).get? (k - 1) with
  | some idx =>
      decide (env.errorThreshold * env.errorThreshold <
        (mainFitAt env i t k idx).error / env.lengthFromTo i idx)
  | none => false

/-- The candidate list consists of consecutive pairs in which the second
member is identical to the first except that both curvature signs are
negated. -/
def pairedFlips : List FitPrimitive → Prop
  | [] => True
  | [_] => False
  | f :: g :: rest => g = flipSigns f ∧ pairedFlips rest

/-- A clothoid primitive with zero curvature everywhere, the zero-offset
output of the zero-curvature oracle in the concrete split environment. -/
def zeroA : CurvePrimitive := CurvePrimitive.mk 2 [0, 0, 0, 1, 0, 0]

/-- Concrete environment with a corner at sample 2 of an open 4-sample
polyline: every candidate passes the acceptance test, so the traversal stop is
decided by the corner rule alone. -/
def cornerEnv : FitterEnv where
  size := 4
  closed := false
  corners := fun k => k == 2
  errorThreshold := 1
  inflectionAccounting := false
  needType := fun _ => true
  adjust := false
  getPrimitive := fun t _ _ => CurvePrimitive.mk t [0, 0, 0, 1, 0, 0]
  zeroCurvCurve := fun _ _ off => CurvePrimitive.mk 2 [0, 0, 0, 1, 0, off]
  adjustCurve := fun cu _ _ _ _ => cu
  computeError := fun _ _ _ => 0
  lengthFromTo := fun _ _ => 1
  idxToParam := fun k => (k : ℚ)

/-- Concrete environment for the line-mirroring behaviour: an open 2-sample
polyline with inflection accounting enabled. -/
def lineEnv : FitterEnv where
  size := 2
  closed := false
  corners := fun _ => false
  errorThreshold := 1
  inflectionAccounting := true
  needType := fun _ => true
  adjust := false
  getPrimitive := fun t _ _ => CurvePrimitive.mk t [0, 0, 0, 1, 0, 0]
  zeroCurvCurve := fun _ _ off => CurvePrimitive.mk 2 [0, 0, 0, 1, 0, off]
  adjustCurve := fun cu _ _ _ _ => cu
  computeError := fun _ _ _ => 0
  lengthFromTo := fun _ _ => 1
  idxToParam := fun k => (k : ℚ)

/-- Concrete environment in which the clothoid candidate over the full open
4-sample span has curvature signs differing at its two ends, the first
inflection-split candidate sits exactly on the error threshold, and the second
is well inside it. -/
def splitEnv : FitterEnv where
  size := 4
  closed := false
  corners := fun _ => false
  errorThreshold := 1
  inflectionAccounting := true
  needType := fun _ => true
  adjust := false
  getPrimitive := fun t _ _ =>
    if t = 2 then CurvePrimitive.mk 2 [0, 0, 0, 1, 1, -2]
    else CurvePrimitive.mk t [0, 0, 0, 1, 0, 0]
  zeroCurvCurve := fun _ _ off => CurvePrimitive.mk 2 [0, 0, 0, 1, 0, off]
  adjustCurve := fun cu _ _ _ _ => cu
  computeError := fun cu _ _ => if cu = zeroA then 1 else 0
  lengthFromTo := fun _ _ => 1
  idxToParam := fun k => (k : ℚ)

/-- The line candidate over the full span of `lineEnv`. -/
def lineFitOne : FitPrimitive := mainFitAt lineEnv 0 0 2 1

/-- The clothoid candidate over the full span of `splitEnv`. -/
def clothFit : FitPrimitive := mainFitAt splitEnv 0 2 4 3

/-- A concrete clothoid candidate record for the constraint-list theorems. -/
def clothoidPrim : FitPrimitive :=
  FitPrimitive.mk (CurvePrimitive.mk 2 [0, 0, 0, 2, 1, -2]) 0 3 4 1 (-1) 0

/-- Claim C1 as stated: for every start index and type, emission in strictly
growing span order, and no candidate at or beyond a span whose materialized
candidate fails the acceptance test. -/
def claimC1 : Prop :=
  ∀ (env : FitterEnv) (i t : Nat),
    List.Pairwise (fun a b : FitPrimitive => a.numPts < b.numPts) (primitivesFor env i t) ∧
    ∀ fit ∈ primitivesFor env i t, ∀ k, 2 + t ≤ k → k ≤ fit.numPts →
      mainFailsAtB env i t k = false

/-- Claim C2 as stated: every refinement of a Clothoid candidate carries the
end-curvature sign constraint (with no condition on inflection accounting),
and every refinement carries the minimum-length constraint. -/
def claimC2 : Prop :=
  ∀ (ia : Bool) (p : FitPrimitive),
    (p.curve.type = 2 →
      LSBoxConstraint.mk DCURVATURE 0 p.endCurvSign ∈ adjustConstraints ia p) ∧
    LSBoxConstraint.mk LENGTH (p.curve.length * (1 / 2)) 1 ∈ adjustConstraints ia p

/-- Claim C3 as stated: when an emitted candidate's end signs differ under
inflection accounting, each of the two inflection-split candidates is emitted
for the pair if and only if its error over the span does not exceed the
squared threshold (a non-strict comparison). -/
def claimC3 : Prop :=
  ∀ (env : FitterEnv) (i t c idx : Nat),
    env.inflectionAccounting = true →
    mainFitAt env i t c idx ∈ primitivesFor env i t →
    (flipFitAt env i t c idx).startCurvSign ≠ (flipFitAt env i t c idx).endCurvSign →
    ((splitFitA env i t c idx ∈ primitivesFor env i t) ↔
      (splitFitA env i t c idx).error / env.lengthFromTo i idx ≤
        env.errorThreshold * env.errorThreshold) ∧
    ((splitFitB env i t c idx ∈ primitivesFor env i t) ↔
      (splitFitB env i t c idx).error / env.lengthFromTo i idx ≤
        env.errorThreshold * env.errorThreshold)

/-- Claim C7 as stated: once more than one point has been fed, traversal stops
as soon as the next sample to be fed is a corner — hence a sample fed at
position of fed count three or more is never a corner. -/
def claimC7 : Prop :=
  ∀ (env : FitterEnv) (i t k : Nat),
    k < (visitedPair env i t).length → 2 ≤ k →
    env.corners ((visitedPair env i t).getD k 0) = false

theorem setP_eq_of_le (l : List ℚ) (n : Nat) (h : l.length ≤ n) (a : ℚ) :
    setP l n a = l := by
  induction l generalizing n with
  | nil => rfl
  | cons b bs ih =>
    cases n with
    | zero => simp at h
    | succ m =>
      simp only [setP, List.set]
      have : bs.length ≤ m := by simpa [Nat.succ_le_succ_iff] using h
      simpa [setP] using ih m this

theorem getD_setP_eq (l : List ℚ) (n : Nat) (a : ℚ) (h : n < l.length) :
    getP (setP l n a) n = a := by
  induction l generalizing n with
  | nil => simp at h
  | cons b bs ih =>
    cases n with
    | zero => rfl
    | succ m =>
      have : m < bs.length := by simpa [Nat.succ_lt_succ_iff] using h
      simpa [getP, setP] using ih m this

theorem getD_setP_ne (l : List ℚ) (n m : Nat) (a : ℚ) (h : n ≠ m) :
    getP (setP l n a) m = getP l m := by
  induction l generalizing n m with
  | nil => rfl
  | cons b bs ih =>
    cases n with
    | zero =>
      cases m with
      | zero => exact absurd rfl h
      | succ j => rfl
    | succ k =>
      cases m with
      | zero => rfl
      | succ j =>
        have : k ≠ j := fun hh => h (by rw [hh])
        simpa [getP, setP] using ih k j this

theorem setP_getD_self (l : List ℚ) (n : Nat) : setP l n (getP l n) = l := by
  induction l generalizing n with
  | nil => rfl
  | cons b bs ih =>
    cases n with
    | zero => rfl
    | succ m => simpa [getP, setP] using ih m

theorem minLength_mem_adjustConstraints (ia : Bool) (p : FitPrimitive) :
    LSBoxConstraint.mk LENGTH (p.curve.length * (1 / 2)) 1 ∈ adjustConstraints ia p := by
  unfold adjustConstraints
  split
  · split <;> split <;> simp
  · simp

/-- C4: for a Clothoid with nonzero LENGTH parameter, `params()` replaces the
DCURVATURE slot by start curvature plus length times curvature rate, and
`setParams(params())` is the identity on the raw parameter vector; for
non-Clothoid types both mappings are the identity. -/
theorem reparam_round_trip (curve : CurvePrimitive) (x : List ℚ) :
    (curve.type = 2 →
      OneCurveProblem.params curve =
        setP curve.params DCURVATURE
          (getP curve.params CURVATURE +
            getP curve.params LENGTH * getP curve.params DCURVATURE) ∧
      (getP curve.params LENGTH ≠ 0 →
        OneCurveProblem.setParams curve (OneCurveProblem.params curve) = curve)) ∧
    (curve.type ≠ 2 →
      OneCurveProblem.params curve = curve.params ∧
      OneCurveProblem.setParams curve x = { curve with params := x }) := by
  constructor
  · intro h2
    refine ⟨by simp [OneCurveProblem.params, h2], ?_⟩
    intro hL
    obtain ⟨ty, ps⟩ := curve
    simp only at h2
    subst h2
    simp only [CurvePrimitive.params] at hL
    simp only [OneCurveProblem.params, OneCurveProblem.setParams, ne_eq, not_true_eq_false,
      if_false, reduceIte, CurvePrimitive.params, CurvePrimitive.mk.injEq, true_and]
    rcases Nat.lt_or_ge DCURVATURE ps.length with h5 | h5
    · rw [getD_setP_eq _ _ _ h5,
        getD_setP_ne _ _ _ _ (by decide : DCURVATURE ≠ CURVATURE),
        getD_setP_ne _ _ _ _ (by decide : DCURVATURE ≠ LENGTH)]
      rw [add_sub_cancel_left, mul_div_cancel_left₀ _ hL]
      simp only [setP, List.set_set]
      simpa [setP] using setP_getD_self ps DCURVATURE
    · rw [setP_eq_of_le _ _ h5, setP_eq_of_le _ _ h5]
  · intro hne
    constructor
    · simp [OneCurveProblem.params, hne]
    · simp [OneCurveProblem.setParams, hne]

theorem reparam_round_trip_witness :
    (CurvePrimitive.mk 2 [1, 1, 1, 2, 3, 5]).type = 2 ∧
    getP (CurvePrimitive.mk 2 [1, 1, 1, 2, 3, 5]).params LENGTH ≠ 0 ∧
    OneCurveProblem.setParams (CurvePrimitive.mk 2 [1, 1, 1, 2, 3, 5])
      (OneCurveProblem.params (CurvePrimitive.mk 2 [1, 1, 1, 2, 3, 5])) =
      CurvePrimitive.mk 2 [1, 1, 1, 2, 3, 5] :=
  ⟨rfl, by decide,
    ((reparam_round_trip (CurvePrimitive.mk 2 [1, 1, 1, 2, 3, 5]) []).1 rfl).2 (by decide)⟩

/-- C5: for a Clothoid evaluated at working parameters with nonzero length,
the Jacobian produced by `eval` is the raw Jacobian with its curvature-rate
column scaled by one over length, that scaled column subtracted from the
curvature column, and the scaled column times (end-curvature parameter minus
start-curvature parameter) over length subtracted from the length column; all
other columns, and every column for a non-Clothoid type, pass through. -/
theorem eval_chain_rule (curve : CurvePrimitive) (x : List ℚ) (errDer : Nat → List ℚ) :
    (curve.type = 2 → getP x LENGTH ≠ 0 →
      OneCurveProblem.eval curve x errDer DCURVATURE =
        colScale (errDer DCURVATURE) (1 / getP x LENGTH) ∧
      OneCurveProblem.eval curve x errDer CURVATURE =
        colSub (errDer CURVATURE) (colScale (errDer DCURVATURE) (1 / getP x LENGTH)) ∧
      OneCurveProblem.eval curve x errDer LENGTH =
        colSub (errDer LENGTH)
          (colScale (colScale (errDer DCURVATURE) (1 / getP x LENGTH))
            ((getP x DCURVATURE - getP x CURVATURE) * (1 / getP x LENGTH))) ∧
      (∀ j, j ≠ LENGTH → j ≠ CURVATURE → j ≠ DCURVATURE →
        OneCurveProblem.eval curve x errDer j = errDer j)) ∧
    (curve.type ≠ 2 → OneCurveProblem.eval curve x errDer = errDer) := by
  constructor
  · intro h2 _hL
    refine ⟨?_, ?_, ?_, ?_⟩
    · simp [OneCurveProblem.eval, h2, Function.update, LENGTH, CURVATURE, DCURVATURE]
    · simp [OneCurveProblem.eval, h2, Function.update, LENGTH, CURVATURE, DCURVATURE]
    · simp [OneCurveProblem.eval, h2, Function.update, LENGTH, CURVATURE, DCURVATURE]
    · intro j hj3 hj4 hj5
      simp [OneCurveProblem.eval, h2, Function.update, hj3, hj4, hj5]
  · intro hne
    simp [OneCurveProblem.eval, hne]

theorem eval_chain_rule_witness :
    (CurvePrimitive.mk 2 [0, 0, 0, 2, 3, 5]).type = 2 ∧
    getP [0, 0, 0, 2, 3, 5] LENGTH ≠ 0 ∧
    OneCurveProblem.eval (CurvePrimitive.mk 2 [0, 0, 0, 2, 3, 5]) [0, 0, 0, 2, 3, 5]
        (fun _ => [1, 2]) DCURVATURE =
      colScale ((fun _ : Nat => [(1 : ℚ), 2]) DCURVATURE) (1 / getP [0, 0, 0, 2, 3, 5] LENGTH) :=
  ⟨rfl, by decide,
    ((eval_chain_rule (CurvePrimitive.mk 2 [0, 0, 0, 2, 3, 5]) [0, 0, 0, 2, 3, 5]
      (fun _ => [1, 2])).1 rfl (by decide)).1⟩

/-- C9: `paramToIdx` always returns an index between zero and the sample count
inclusive, and when the parameter is at or beyond every cumulative length — in
particular at the end of the parameter range of an open polyline — it returns
the sample count itself, one past the last sample index. -/
theorem paramToIdx_range (cumlen : List ℚ) (param : ℚ) :
    0 ≤ paramToIdx cumlen param ∧ paramToIdx cumlen param ≤ (cumlen.length : Int) ∧
    ((∀ c ∈ cumlen, c ≤ param) → paramToIdx cumlen param = (cumlen.length : Int)) := by
  refine ⟨Int.ofNat_nonneg _, ?_, ?_⟩
  · unfold paramToIdx
    exact_mod_cast List.countP_le_length _
  · intro h
    unfold paramToIdx
    norm_cast
    rw [List.countP_eq_length]
    intro a ha
    simpa using h a ha

theorem paramToIdx_range_witness :
    paramToIdx [0, 1, 2] 2 = (([(0 : ℚ), 1, 2].length : Nat) : Int) :=
  (paramToIdx_range [0, 1, 2] 2).2.2 (by decide)

/-- C10: any working parameter vector satisfying the constraint list that
`adjustPrimitive` builds for a candidate of positive fitted length has a
positive LENGTH entry, so the division-by-zero branches of the total
embeddings of `setParams` and `eval` are not taken. -/
theorem refine_no_div_by_zero (ia : Bool) (p : FitPrimitive) (x : List ℚ)
    (errDer : Nat → List ℚ) (hpos : 0 < p.curve.length)
    (hsat : ∀ cst ∈ adjustConstraints ia p, satisfiesConstraintB x cst = true) :
    getP x LENGTH ≠ 0 ∧
    OneCurveProblem.setParamsChecked p.curve x = some (OneCurveProblem.setParams p.curve x) ∧
    OneCurveProblem.evalChecked p.curve x errDer =
      some (OneCurveProblem.eval p.curve x errDer) := by
  have hmin := hsat _ (minLength_mem_adjustConstraints ia p)
  simp only [satisfiesConstraintB] at hmin
  rw [if_pos (by decide : (0 : Int) < 1)] at hmin
  have hle : p.curve.length * (1 / 2) ≤ getP x LENGTH := of_decide_eq_true hmin
  have hhalf : 0 < p.curve.length * (1 / 2) := by positivity
  have hL : 0 < getP x LENGTH := lt_of_lt_of_le hhalf hle
  have hne : getP x LENGTH ≠ 0 := ne_of_gt hL
  refine ⟨hne, ?_, ?_⟩
  · unfold OneCurveProblem.setParamsChecked
    rw [if_neg (by intro hc; exact hne hc.2)]
  · unfold OneCurveProblem.evalChecked
    rw [if_neg (by intro hc; exact hne hc.2)]

theorem refine_no_div_by_zero_witness :
    0 < clothoidPrim.curve.length ∧
    (∀ cst ∈ adjustConstraints false clothoidPrim,
      satisfiesConstraintB [0, 0, 0, 2, 0, 0] cst = true) ∧
    getP [0, 0, 0, 2, 0, 0] LENGTH ≠ 0 :=
  ⟨by norm_num [clothoidPrim, CurvePrimitive.length, getP, LENGTH],
    by norm_num [adjustConstraints, satisfiesConstraintB, clothoidPrim,
      CurvePrimitive.length, getP, LENGTH],
    (refine_no_div_by_zero false clothoidPrim [0, 0, 0, 2, 0, 0] (fun _ => [])
      (by norm_num [clothoidPrim, CurvePrimitive.length, getP, LENGTH])
      (by norm_num [adjustConstraints, satisfiesConstraintB, clothoidPrim,
        CurvePrimitive.length, getP, LENGTH])).1⟩

/-- C2 (amended): every refinement builds the minimum-length box constraint
with bound half the curve's current fitted length, and, when inflection
accounting is enabled, a Clothoid refinement also builds the constraint
pinning the reparametrized DCURVATURE slot to the side of zero given by
`endCurvSign`. -/
theorem refine_constraints_contents (ia : Bool) (p : FitPrimitive) :
    LSBoxConstraint.mk LENGTH (p.curve.length * (1 / 2)) 1 ∈ adjustConstraints ia p ∧
    (ia = true → p.curve.type = 2 →
      LSBoxConstraint.mk DCURVATURE 0 p.endCurvSign ∈ adjustConstraints ia p) := by
  refine ⟨minLength_mem_adjustConstraints ia p, ?_⟩
  intro hia h2
  subst hia
  unfold adjustConstraints
  rw [if_pos rfl]
  simp [h2]

theorem refine_constraints_contents_witness :
    LSBoxConstraint.mk LENGTH (clothoidPrim.curve.length * (1 / 2)) 1 ∈
      adjustConstraints true clothoidPrim ∧
    LSBoxConstraint.mk DCURVATURE 0 clothoidPrim.endCurvSign ∈
      adjustConstraints true clothoidPrim :=
  ⟨(refine_constraints_contents true clothoidPrim).1,
    (refine_constraints_contents true clothoidPrim).2 rfl rfl⟩

/-- C2 (counterexample): with inflection accounting disabled, the constraint
list for a Clothoid refinement contains no end-curvature-sign constraint, so
the claim as stated — which requires it for every Clothoid refinement — fails. -/
theorem clothoid_constraint_counterexample : ¬ claimC2 := by
  intro h
  exact absurd ((h false clothoidPrim).1 rfl) (by decide)

theorem mainFitAt_numPts (env : FitterEnv) (i t c idx : Nat) :
    (mainFitAt env i t c idx).numPts = c := by
  unfold mainFitAt adjustFit
  split <;> rfl

theorem mainFitAt_startCurvSign (env : FitterEnv) (i t c idx : Nat) :
    (mainFitAt env i t c idx).startCurvSign =
      if 0 ≤ (env.getPrimitive t i c).startCurvature then 1 else -1 := by
  unfold mainFitAt adjustFit
  split <;> rfl

theorem mainFitAt_endCurvSign (env : FitterEnv) (i t c idx : Nat) :
    (mainFitAt env i t c idx).endCurvSign =
      if 0 ≤ (env.getPrimitive t i c).endCurvature then 1 else -1 := by
  unfold mainFitAt adjustFit
  split <;> rfl

theorem mainFitAt_curve_type (env : FitterEnv) (i t c idx : Nat)
    (hadj : ∀ cu a b s e, (env.adjustCurve cu a b s e).type = cu.type) :
    (mainFitAt env i t c idx).curve.type = (env.getPrimitive t i c).type := by
  unfold mainFitAt adjustFit
  split
  · exact hadj _ _ _ _ _
  · rfl

theorem flipSigns_numPts (f : FitPrimitive) : (flipSigns f).numPts = f.numPts := rfl

theorem flipSigns_curve (f : FitPrimitive) : (flipSigns f).curve = f.curve := rfl

theorem flipFitAt_numPts (env : FitterEnv) (i t c idx : Nat) :
    (flipFitAt env i t c idx).numPts = c := by
  unfold flipFitAt
  split
  · rw [flipSigns_numPts, mainFitAt_numPts]
  · exact mainFitAt_numPts env i t c idx

theorem splitFitA_numPts (env : FitterEnv) (i t c idx : Nat) :
    (splitFitA env i t c idx).numPts = c := by
  simp only [splitFitA, adjustFit, apply_ite FitPrimitive.numPts]
  simp [flipFitAt_numPts]

theorem splitFitB_numPts (env : FitterEnv) (i t c idx : Nat) :
    (splitFitB env i t c idx).numPts = c := by
  simp only [splitFitB, adjustFit, apply_ite FitPrimitive.numPts]
  simp [splitFitA_numPts]

theorem splitFitA_curve_type (env : FitterEnv) (i t c idx : Nat)
    (hadj : ∀ cu a b s e, (env.adjustCurve cu a b s e).type = cu.type)
    (hzero : ∀ a b off, (env.zeroCurvCurve a b off).type = 2) :
    (splitFitA env i t c idx).curve.type = 2 := by
  simp only [splitFitA, adjustFit, apply_ite FitPrimitive.curve]
  simp [apply_ite CurvePrimitive.type, hadj, hzero]

theorem splitFitB_curve_type (env : FitterEnv) (i t c idx : Nat)
    (hadj : ∀ cu a b s e, (env.adjustCurve cu a b s e).type = cu.type)
    (hzero : ∀ a b off, (env.zeroCurvCurve a b off).type = 2) :
    (splitFitB env i t c idx).curve.type = 2 := by
  simp only [splitFitB, adjustFit, apply_ite FitPrimitive.curve]
  simp [apply_ite CurvePrimitive.type, hadj, hzero]

theorem mem_chunkAt_cases (env : FitterEnv) (i t c idx : Nat) (f : FitPrimitive)
    (hf : f ∈ chunkAt env i t c idx) :
    f = mainFitAt env i t c idx ∨
    (t = 0 ∧ env.inflectionAccounting = true ∧ f = flipSigns (mainFitAt env i t c idx)) ∨
    (env.inflectionAccounting = true ∧
      (flipFitAt env i t c idx).startCurvSign ≠ (flipFitAt env i t c idx).endCurvSign ∧
      (f = splitFitA env i t c idx ∨ f = splitFitB env i t c idx)) := by
  simp only [chunkAt] at hf
  by_cases hsplit : (flipFitAt env i t c idx).startCurvSign ≠
      (flipFitAt env i t c idx).endCurvSign ∧ env.inflectionAccounting = true
  · rw [if_pos hsplit] at hf
    simp only [List.mem_append] at hf
    rcases hf with (hbase | hg) | hh
    · by_cases hb : t = 0 ∧ env.inflectionAccounting = true
      · rw [if_pos hb] at hbase
        simp only [List.mem_cons, List.not_mem_nil, or_false] at hbase
        rcases hbase with h1 | h2
        · exact Or.inl h1
        · refine Or.inr (Or.inl ⟨hb.1, hb.2, ?_⟩)
          rw [h2]
          unfold flipFitAt
          rw [if_pos hb]
      · rw [if_neg hb] at hbase
        simp only [List.mem_cons, List.not_mem_nil, or_false] at hbase
        exact Or.inl hbase
    · have hfg : f = splitFitA env i t c idx := by
        by_cases hc : (splitFitA env i t c idx).error / env.lengthFromTo i idx <
            env.errorThreshold * env.errorThreshold
        · rw [if_pos hc] at hg
          simpa using hg
        · rw [if_neg hc] at hg
          simp at hg
      exact Or.inr (Or.inr ⟨hsplit.2, hsplit.1, Or.inl hfg⟩)
    · have hfh : f = splitFitB env i t c idx := by
        by_cases hc : (splitFitB env i t c idx).error / env.lengthFromTo i idx <
            env.errorThreshold * env.errorThreshold
        · rw [if_pos hc] at hh
          simpa using hh
        · rw [if_neg hc] at hh
          simp at hh
      exact Or.inr (Or.inr ⟨hsplit.2, hsplit.1, Or.inr hfh⟩)
  · rw [if_neg hsplit] at hf
    by_cases hb : t = 0 ∧ env.inflectionAccounting = true
    · rw [if_pos hb] at hf
      simp only [List.mem_cons, List.not_mem_nil, or_false] at hf
      rcases hf with h1 | h2
      · exact Or.inl h1
      · refine Or.inr (Or.inl ⟨hb.1, hb.2, ?_⟩)
        rw [h2]
        unfold flipFitAt
        rw [if_pos hb]
    · rw [if_neg hb] at hf
      simp only [List.mem_cons, List.not_mem_nil, or_false] at hf
      exact Or.inl hf

theorem numPts_of_mem_chunkAt (env : FitterEnv) (i t c idx : Nat) (f : FitPrimitive)
    (hf : f ∈ chunkAt env i t c idx) : f.numPts = c := by
  rcases mem_chunkAt_cases env i t c idx f hf with h | ⟨_, _, h⟩ | ⟨_, _, h | h⟩
  · rw [h]; exact mainFitAt_numPts env i t c idx
  · rw [h, flipSigns_numPts]; exact mainFitAt_numPts env i t c idx
  · rw [h]; exact splitFitA_numPts env i t c idx
  · rw [h]; exact splitFitB_numPts env i t c idx

theorem mem_runPair_fst (env : FitterEnv) (i t : Nat) :
    ∀ (l : List Nat) (c : Nat) (f : FitPrimitive), f ∈ (runPair env i t l c).1 →
      ∃ c' idx', c < c' ∧ 2 + t ≤ c' ∧ f ∈ chunkAt env i t c' idx' := by
  intro l
  induction l with
  | nil => intro c f hf; simp [runPair] at hf
  | cons idx rest ih =>
    intro c f hf
    simp only [runPair] at hf
    split at hf
    · simp at hf
    · split at hf
      · next hge =>
        split at hf
        · simp at hf
        · split at hf
          · exact ⟨c + 1, idx, Nat.lt_succ_self c, hge, by simpa using hf⟩
          · simp only [List.mem_append] at hf
            rcases hf with h | h
            · exact ⟨c + 1, idx, Nat.lt_succ_self c, hge, h⟩
            · obtain ⟨c', idx', hlt, hge', hmem⟩ := ih (c + 1) f h
              exact ⟨c', idx', Nat.lt_of_succ_lt hlt, hge', hmem⟩
      · split at hf
        · simp at hf
        · simp only at hf
          obtain ⟨c', idx', hlt, hge', hmem⟩ := ih (c + 1) f hf
          exact ⟨c', idx', Nat.lt_of_succ_lt hlt, hge', hmem⟩

theorem flipFitAt_signs_eq_of_low (env : FitterEnv) (i c idx : Nat) (t : Nat) (ht : t < 2)
    (htype : (env.getPrimitive t i c).type = t) :
    (flipFitAt env i t c idx).startCurvSign = (flipFitAt env i t c idx).endCurvSign := by
  match t, ht, htype with
  | 0, _, htype =>
    unfold flipFitAt
    by_cases hia : env.inflectionAccounting = true
    · rw [if_pos ⟨rfl, hia⟩]
      unfold flipSigns
      simp only [mainFitAt_startCurvSign, mainFitAt_endCurvSign,
        CurvePrimitive.startCurvature, CurvePrimitive.endCurvature, htype]
      simp
    · rw [if_neg (fun hc => hia hc.2)]
      simp only [mainFitAt_startCurvSign, mainFitAt_endCurvSign,
        CurvePrimitive.startCurvature, CurvePrimitive.endCurvature, htype]
      simp
  | 1, _, htype =>
    unfold flipFitAt
    rw [if_neg (fun hc => Nat.one_ne_zero hc.1)]
    simp only [mainFitAt_startCurvSign, mainFitAt_endCurvSign,
      CurvePrimitive.startCurvature, CurvePrimitive.endCurvature, htype]
    simp

/-- C8: every candidate emitted for a pair whose type index is at most two has
at least its curve's type tag plus two sample points, given the external
contracts that each fitter returns a primitive of its own type, the
zero-curvature construction returns clothoids, and the solver preserves the
primitive type. -/
theorem candidate_min_points (env : FitterEnv) (i t : Nat) (ht : t < 3)
    (htype : ∀ t' i' k, (env.getPrimitive t' i' k).type = t')
    (hzero : ∀ a b off, (env.zeroCurvCurve a b off).type = 2)
    (hadj : ∀ cu a b s e, (env.adjustCurve cu a b s e).type = cu.type) :
    ∀ f ∈ primitivesFor env i t, f.curve.type + 2 ≤ f.numPts := by
  intro f hf
  obtain ⟨c', idx', _hlt, hge, hmem⟩ :=
    mem_runPair_fst env i t (circIndices env i) 0 f hf
  have hnum : f.numPts = c' := numPts_of_mem_chunkAt env i t c' idx' f hmem
  rcases mem_chunkAt_cases env i t c' idx' f hmem with h | ⟨_, _, h⟩ | ⟨_, hsig, h⟩
  · rw [h, mainFitAt_curve_type env i t c' idx' hadj, htype t i c']
    rw [h] at hnum
    omega
  · rw [h, flipSigns_curve, mainFitAt_curve_type env i t c' idx' hadj, htype t i c']
    rw [h] at hnum
    omega
  · have ht2 : t = 2 := by
      by_contra hne
      have hlow : t < 2 := by omega
      exact hsig (flipFitAt_signs_eq_of_low env i c' idx' t hlow (htype t i c'))
    subst ht2
    rcases h with h | h
    · rw [h, splitFitA_curve_type env i 2 c' idx' hadj hzero]
      rw [h] at hnum
      omega
    · rw [h, splitFitB_curve_type env i 2 c' idx' hadj hzero]
      rw [h] at hnum
      omega

theorem pairwise_numPts_le (env : FitterEnv) (i t : Nat) :
    ∀ (l : List Nat) (c : Nat),
      List.Pairwise (fun a b : FitPrimitive => a.numPts ≤ b.numPts) ((runPair env i t l c).1) := by
  intro l
  induction l with
  | nil => intro c; simp [runPair]
  | cons idx rest ih =>
    intro c
    simp only [runPair]
    split
    · simp
    · split
      · split
        · simp
        · have hchunk : List.Pairwise (fun a b : FitPrimitive => a.numPts ≤ b.numPts)
              (chunkAt env i t (c + 1) idx) := by
            apply List.pairwise_of_forall_mem_list
            intro a ha b hb
            rw [numPts_of_mem_chunkAt env i t (c + 1) idx a ha,
              numPts_of_mem_chunkAt env i t (c + 1) idx b hb]
          split
          · simpa using hchunk
          · simp only
            rw [List.pairwise_append]
            refine ⟨hchunk, ih (c + 1), ?_⟩
            intro a ha b hb
            rw [numPts_of_mem_chunkAt env i t (c + 1) idx a ha]
            obtain ⟨c'', idx'', hlt, _, hmem⟩ := mem_runPair_fst env i t rest (c + 1) b hb
            rw [numPts_of_mem_chunkAt env i t c'' idx'' b hmem]
            omega
      · split
        · simp
        · simpa using ih (c + 1)

theorem prune_invariant (env : FitterEnv) (i t : Nat) :
    ∀ (l : List Nat) (c : Nat),
      (∀ pos idx0, l.get? pos = some idx0 → (circIndices env i).get? (c + pos) = some idx0) →
      ∀ f ∈ (runPair env i t l c).1, ∀ k, 2 + t ≤ k → c < k → k ≤ f.numPts →
        mainFailsAtB env i t k = false := by
  intro l
  induction l with
  | nil => intro c _ f hf; simp [runPair] at hf
  | cons idx rest ih =>
    intro c hsuf f hf k hk1 hk2 hk3
    have hsuf' : ∀ pos idx0, rest.get? pos = some idx0 →
        (circIndices env i).get? (c + 1 + pos) = some idx0 := by
      intro pos idx0 hpos
      have := hsuf (pos + 1) idx0 (by simpa using hpos)
      rw [show c + 1 + pos = c + (pos + 1) from by omega]
      exact this
    simp only [runPair] at hf
    split at hf
    · simp at hf
    · split at hf
      · split at hf
        · simp at hf
        · next hthr =>
          have hpass : mainFailsAtB env i t (c + 1) = false := by
            unfold mainFailsAtB
            have hidx : (circIndices env i).get? c = some idx := by
              have := hsuf 0 idx rfl
              simpa using this
            rw [show c + 1 - 1 = c from rfl, hidx]
            exact decide_eq_false hthr
          split at hf
          · have hnum := numPts_of_mem_chunkAt env i t (c + 1) idx f (by simpa using hf)
            have : k = c + 1 := by omega
            rw [this]
            exact hpass
          · simp only [List.mem_append] at hf
            rcases hf with h | h
            · have hnum := numPts_of_mem_chunkAt env i t (c + 1) idx f h
              have : k = c + 1 := by omega
              rw [this]
              exact hpass
            · rcases Nat.lt_or_ge (c + 1) k with hgt | hle
              · exact ih (c + 1) hsuf' f h k hk1 hgt hk3
              · have : k = c + 1 := by omega
                rw [this]
                exact hpass
      · next hlt =>
        split at hf
        · simp at hf
        · simp only at hf
          rcases Nat.lt_or_ge (c + 1) k with hgt | hle
          · exact ih (c + 1) hsuf' f hf k hk1 hgt hk3
          · omega

theorem visited_cons_head (env : FitterEnv) (i t : Nat) (idx : Nat) (rest : List Nat) (c : Nat) :
    ∃ v, (runPair env i t (idx :: rest) c).2 = idx :: v := by
  simp only [runPair]
  split
  · exact ⟨[], rfl⟩
  · split
    · split
      · exact ⟨[], rfl⟩
      · split
        · exact ⟨[], rfl⟩
        · exact ⟨_, rfl⟩
    · split
      · exact ⟨[], rfl⟩
      · exact ⟨_, rfl⟩

theorem runPair_snd_cases (env : FitterEnv) (i t idx : Nat) (rest : List Nat) (c : Nat) :
    (runPair env i t (idx :: rest) c).2 = [idx] ∨
    ((runPair env i t (idx :: rest) c).2 = idx :: (runPair env i t rest (c + 1)).2 ∧
      ¬(1 < c + 1 ∧ env.corners idx = true)) := by
  simp only [runPair]
  split
  · exact Or.inl rfl
  · split
    · split
      · exact Or.inl rfl
      · split
        · exact Or.inl rfl
        · next hcont => exact Or.inr ⟨rfl, hcont⟩
    · split
      · exact Or.inl rfl
      · next hcont => exact Or.inr ⟨rfl, hcont⟩

theorem runPair_snd_continue (env : FitterEnv) (i t idx : Nat) (rest : List Nat) (c : Nat)
    (hneed : ¬(env.needType t = false ∧ (t = 2 ∨ 3 + t ≤ c + 1)))
    (hsmall : ¬(2 + t ≤ c + 1))
    (hcor : ¬(1 < c + 1 ∧ env.corners idx = true)) :
    (runPair env i t (idx :: rest) c).2 = idx :: (runPair env i t rest (c + 1)).2 := by
  simp only [runPair]
  rw [if_neg hneed, if_neg hsmall, if_neg hcor]

theorem corner_stop_invariant (env : FitterEnv) (i t : Nat) :
    ∀ (l : List Nat) (c k : Nat), k < ((runPair env i t l c).2).length →
      1 ≤ c + k → env.corners (((runPair env i t l c).2).getD k 0) = true →
      ((runPair env i t l c).2).length = k + 1 := by
  intro l
  induction l with
  | nil => intro c k hk _ _; simp [runPair] at hk
  | cons idx rest ih =>
    intro c k hk hck hcor
    rcases runPair_snd_cases env i t idx rest c with hv | ⟨hv, hcont⟩
    · rw [hv] at hk ⊢
      simp only [List.length_singleton] at hk ⊢
      omega
    · rw [hv] at hk hcor ⊢
      cases k with
      | zero =>
        simp only [List.getD_cons_zero] at hcor
        exact absurd ⟨by omega, hcor⟩ hcont
      | succ j =>
        simp only [List.length_cons, Nat.succ_lt_succ_iff] at hk
        simp only [List.getD_cons_succ] at hcor
        have := ih (c + 1) j hk (by omega) hcor
        simp only [List.length_cons, this]

theorem start_corner_no_stop (env : FitterEnv) (i t : Nat)
    (h2 : 2 ≤ (circIndices env i).length)
    (hneed : env.needType t = true ∨ t ≠ 2) :
    2 ≤ (visitedPair env i t).length := by
  unfold visitedPair
  rcases hl : circIndices env i with _ | ⟨a, l'⟩
  · rw [hl] at h2
    simp at h2
  · rcases l' with _ | ⟨b, rest⟩
    · rw [hl] at h2
      simp at h2
    · rw [runPair_snd_continue env i t a (b :: rest) 0 ?h1 (by omega) ?h3]
      case h1 =>
        intro hc
        rcases hneed with hn | hn
        · rw [hn] at hc
          simp at hc
        · rcases hc.2 with h | h
          · exact hn h
          · omega
      case h3 =>
        intro hc
        omega
      obtain ⟨v, hv⟩ := visited_cons_head env i t b rest 1
      rw [hv]
      simp

theorem chunkAt_line (env : FitterEnv) (i c idx : Nat)
    (hia : env.inflectionAccounting = true)
    (hsigns : (flipFitAt env i 0 c idx).startCurvSign = (flipFitAt env i 0 c idx).endCurvSign) :
    chunkAt env i 0 c idx = [mainFitAt env i 0 c idx, flipSigns (mainFitAt env i 0 c idx)] := by
  simp only [chunkAt]
  rw [if_neg (fun hc => hc.1 hsigns)]
  rw [if_pos ⟨by trivial, hia⟩]
  have : flipFitAt env i 0 c idx = flipSigns (mainFitAt env i 0 c idx) := by
    unfold flipFitAt
    rw [if_pos ⟨by trivial, hia⟩]
  rw [this]

theorem pairedFlips_pair_append (f : FitPrimitive) (l : List FitPrimitive)
    (hl : pairedFlips l) : pairedFlips (f :: flipSigns f :: l) := by
  show flipSigns f = flipSigns f ∧ pairedFlips l
  exact ⟨rfl, hl⟩

theorem line_pairs_invariant (env : FitterEnv) (i : Nat)
    (hia : env.inflectionAccounting = true)
    (hline : ∀ k, (env.getPrimitive 0 i k).type = 0) :
    ∀ (l : List Nat) (c : Nat), pairedFlips ((runPair env i 0 l c).1) := by
  intro l
  induction l with
  | nil => intro c; simp [runPair, pairedFlips]
  | cons idx rest ih =>
    intro c
    have hchunk : chunkAt env i 0 (c + 1) idx =
        [mainFitAt env i 0 (c + 1) idx, flipSigns (mainFitAt env i 0 (c + 1) idx)] :=
      chunkAt_line env i (c + 1) idx hia
        (flipFitAt_signs_eq_of_low env i (c + 1) idx 0 (by omega) (hline (c + 1)))
    simp only [runPair]
    split
    · simp [pairedFlips]
    · split
      · split
        · simp [pairedFlips]
        · split
          · simp only [hchunk]
            exact pairedFlips_pair_append _ _ (by simp [pairedFlips])
          · simp only [hchunk]
            exact pairedFlips_pair_append _ _ (ih (c + 1))
      · split
        · simp [pairedFlips]
        · simpa using ih (c + 1)

theorem chunkAt_split_form (env : FitterEnv) (i t c idx : Nat)
    (hia : env.inflectionAccounting = true)
    (hsig : (flipFitAt env i t c idx).startCurvSign ≠ (flipFitAt env i t c idx).endCurvSign) :
    chunkAt env i t c idx =
      ((if t = 0 then [mainFitAt env i t c idx, flipFitAt env i t c idx]
        else [mainFitAt env i t c idx]) ++
        (if (splitFitA env i t c idx).error / env.lengthFromTo i idx <
            env.errorThreshold * env.errorThreshold
          then [splitFitA env i t c idx] else [])) ++
      (if (splitFitB env i t c idx).error / env.lengthFromTo i idx <
          env.errorThreshold * env.errorThreshold
        then [splitFitB env i t c idx] else []) := by
  simp only [chunkAt]
  rw [if_pos ⟨hsig, hia⟩]
  congr 2
  by_cases ht : t = 0
  · rw [if_pos ⟨ht, hia⟩, if_pos ht]
  · rw [if_neg (fun hc => ht hc.1), if_neg ht]

theorem visited_zeroCurv_invariant (env : FitterEnv) (i t : Nat)
    (z : Nat → Nat → ℚ → CurvePrimitive) :
    ∀ (l : List Nat) (c : Nat),
      (runPair { env with zeroCurvCurve := z } i t l c).2 = (runPair env i t l c).2 := by
  intro l
  induction l with
  | nil => intro c; rfl
  | cons idx rest ih =>
    intro c
    have hm : mainFitAt { env with zeroCurvCurve := z } i t (c + 1) idx =
        mainFitAt env i t (c + 1) idx := rfl
    simp only [runPair]
    rw [hm]
    by_cases h1 : env.needType t = false ∧ (t = 2 ∨ 3 + t ≤ c + 1)
    · simp only [if_pos h1]
    · simp only [if_neg h1]
      by_cases h2 : 2 + t ≤ c + 1
      · simp only [if_pos h2]
        by_cases h3 : env.errorThreshold * env.errorThreshold <
            (mainFitAt env i t (c + 1) idx).error / env.lengthFromTo i idx
        · simp only [if_pos h3]
        · simp only [if_neg h3]
          by_cases h4 : 1 < c + 1 ∧ env.corners idx = true
          · simp only [if_pos h4]
          · simp only [if_neg h4]
            simp only [ih (c + 1)]
      · simp only [if_neg h2]
        by_cases h4 : 1 < c + 1 ∧ env.corners idx = true
        · simp only [if_pos h4]
        · simp only [if_neg h4]
          simp only [ih (c + 1)]

theorem cornerEnv_visited : visitedPair cornerEnv 0 0 = [0, 1, 2] := by
  norm_num [visitedPair, runPair, circIndices, cornerEnv, chunkAt, mainFitAt, flipFitAt,
    splitFitA, splitFitB, flipSigns, adjustFit, CurvePrimitive.startCurvature,
    CurvePrimitive.endCurvature, getP, LENGTH, CURVATURE, DCURVATURE, List.range_succ]

theorem lineEnv_primitives : primitivesFor lineEnv 0 0 = [lineFitOne, flipSigns lineFitOne] := by
  norm_num [primitivesFor, runPair, circIndices, lineEnv, chunkAt, mainFitAt, flipFitAt,
    splitFitA, splitFitB, flipSigns, adjustFit, lineFitOne, CurvePrimitive.startCurvature,
    CurvePrimitive.endCurvature, getP, LENGTH, CURVATURE, DCURVATURE, List.range_succ]

theorem splitEnv_primitives :
    primitivesFor splitEnv 0 2 = [clothFit, splitFitB splitEnv 0 2 4 3] := by
  norm_num [primitivesFor, runPair, circIndices, splitEnv, chunkAt, mainFitAt, flipFitAt,
    splitFitA, splitFitB, flipSigns, adjustFit, clothFit, zeroA, CurvePrimitive.startCurvature,
    CurvePrimitive.endCurvature, getP, LENGTH, CURVATURE, DCURVATURE, List.range_succ]

theorem splitEnv_signs_differ :
    (flipFitAt splitEnv 0 2 4 3).startCurvSign ≠ (flipFitAt splitEnv 0 2 4 3).endCurvSign := by
  norm_num [flipFitAt, mainFitAt_startCurvSign, mainFitAt_endCurvSign, splitEnv,
    CurvePrimitive.startCurvature, CurvePrimitive.endCurvature, getP, LENGTH, CURVATURE,
    DCURVATURE]

theorem splitFitA_splitEnv_val :
    splitFitA splitEnv 0 2 4 3 =
      FitPrimitive.mk zeroA 0 3 4 (-1) (-1) 1 := by
  norm_num [splitFitA, flipFitAt, mainFitAt, adjustFit, splitEnv, zeroA,
    CurvePrimitive.startCurvature, CurvePrimitive.endCurvature, getP, LENGTH, CURVATURE,
    DCURVATURE]

theorem splitFitB_splitEnv_val :
    splitFitB splitEnv 0 2 4 3 =
      FitPrimitive.mk (CurvePrimitive.mk 2 [0, 0, 0, 1, 0, 3]) 0 3 4 (-1) (-1) 0 := by
  norm_num [splitFitB, splitFitA, flipFitAt, mainFitAt, adjustFit, splitEnv, zeroA,
    CurvePrimitive.startCurvature, CurvePrimitive.endCurvature, getP, LENGTH, CURVATURE,
    DCURVATURE]

theorem clothFit_val :
    clothFit = FitPrimitive.mk (CurvePrimitive.mk 2 [0, 0, 0, 1, 1, -2]) 0 3 4 1 (-1) 0 := by
  norm_num [clothFit, mainFitAt, adjustFit, splitEnv, zeroA, CurvePrimitive.startCurvature,
    CurvePrimitive.endCurvature, getP, LENGTH, CURVATURE, DCURVATURE]

/-- C1 (amended): candidates for a pair are emitted in non-decreasing span
order, and every emitted candidate's span has every materialized candidate at
or below it passing the acceptance test — so once a materialized candidate
fails the test it is not emitted and nothing with a longer span ever is. -/
theorem span_monotone_and_pruning (env : FitterEnv) (i t : Nat) :
    List.Pairwise (fun a b : FitPrimitive => a.numPts ≤ b.numPts) (primitivesFor env i t) ∧
    ∀ f ∈ primitivesFor env i t, ∀ k, 2 + t ≤ k → k ≤ f.numPts →
      mainFailsAtB env i t k = false := by
  constructor
  · exact pairwise_numPts_le env i t (circIndices env i) 0
  · intro f hf k hk1 hk3
    refine prune_invariant env i t (circIndices env i) 0 ?_ f hf k hk1 (by omega) hk3
    intro pos idx0 h
    simpa using h

theorem span_monotone_and_pruning_witness :
    lineFitOne ∈ primitivesFor lineEnv 0 0 ∧ mainFailsAtB lineEnv 0 0 2 = false :=
  ⟨by rw [lineEnv_primitives]; exact List.mem_cons_self _ _,
    (span_monotone_and_pruning lineEnv 0 0).2 lineFitOne
      (by rw [lineEnv_primitives]; exact List.mem_cons_self _ _) 2 (le_refl 2)
      (le_of_eq (mainFitAt_numPts lineEnv 0 0 2 1).symm)⟩

/-- C1 (counterexample): with inflection accounting on, a line span emits its
candidate and the mirrored copy with the same span, so the emission order is
not strictly growing in span. -/
theorem strict_span_counterexample : ¬ claimC1 := by
  intro h
  have h1 := (h lineEnv 0 0).1
  rw [lineEnv_primitives] at h1
  have h2 := List.rel_of_pairwise_cons h1 (List.mem_cons_self _ _)
  rw [flipSigns_numPts] at h2
  exact lt_irrefl _ h2

/-- C6: with inflection accounting enabled and a line fitter that produces
Line primitives, the candidate list of a (start, Line) pair consists of
consecutive pairs in which the second candidate is the first with both
curvature signs negated — each valid line span yields exactly the two
sign orientations. -/
theorem line_mirror_pairing (env : FitterEnv) (i : Nat)
    (hia : env.inflectionAccounting = true)
    (hline : ∀ k, (env.getPrimitive 0 i k).type = 0) :
    pairedFlips (primitivesFor env i 0) :=
  line_pairs_invariant env i hia hline (circIndices env i) 0

theorem line_mirror_pairing_witness :
    lineEnv.inflectionAccounting = true ∧ pairedFlips (primitivesFor lineEnv 0 0) :=
  ⟨rfl, line_mirror_pairing lineEnv 0 rfl (fun _ => rfl)⟩

/-- C7 (amended): traversal for a pair stops right after feeding a corner
sample once more than one point has been fed — the corner becomes the last
visited index and the candidate ending there is still materialized — while a
corner at the start index itself never stops traversal. -/
theorem corner_stop_rule (env : FitterEnv) (i t : Nat) :
    (∀ k, k < (visitedPair env i t).length → 1 ≤ k →
      env.corners ((visitedPair env i t).getD k 0) = true →
      (visitedPair env i t).length = k + 1) ∧
    (2 ≤ (circIndices env i).length → (env.needType t = true ∨ t ≠ 2) →
      2 ≤ (visitedPair env i t).length) := by
  constructor
  · intro k hk hk1 hcor
    exact corner_stop_invariant env i t (circIndices env i) 0 k hk (by omega) hcor
  · intro h2 hn
    exact start_corner_no_stop env i t h2 hn

theorem corner_stop_rule_witness :
    cornerEnv.corners ((visitedPair cornerEnv 0 0).getD 2 0) = true ∧
    (visitedPair cornerEnv 0 0).length = 2 + 1 :=
  ⟨by rw [cornerEnv_visited]; rfl,
    (corner_stop_rule cornerEnv 0 0).1 2 (by rw [cornerEnv_visited]; decide) (by decide)
      (by rw [cornerEnv_visited]; rfl)⟩

/-- C7 (counterexample): the code checks the corner flag of the sample just
fed, not of the next sample to be fed, so a corner sample is fed (and ends a
span) at fed-count three — refuting the claim that traversal stops before
feeding it. -/
theorem corner_next_sample_counterexample : ¬ claimC7 := by
  intro h
  have hlen : 2 < (visitedPair cornerEnv 0 0).length := by
    rw [cornerEnv_visited]
    decide
  have := h cornerEnv 0 0 2 hlen (le_refl 2)
  rw [cornerEnv_visited] at this
  simp [cornerEnv] at this

/-- C3 (amended): when the (possibly mirrored) emitted candidate's end signs
differ under inflection accounting, the iteration's emitted chunk is the base
candidates followed by each inflection-split candidate exactly when its error
over the span is strictly below the squared threshold, each tested
independently; and the traversal (the visited index list) is unaffected by the
split candidates' construction. -/
theorem inflection_split_emission (env : FitterEnv) (i t c idx : Nat)
    (hia : env.inflectionAccounting = true)
    (hsig : (flipFitAt env i t c idx).startCurvSign ≠ (flipFitAt env i t c idx).endCurvSign) :
    chunkAt env i t c idx =
      ((if t = 0 then [mainFitAt env i t c idx, flipFitAt env i t c idx]
        else [mainFitAt env i t c idx]) ++
        (if (splitFitA env i t c idx).error / env.lengthFromTo i idx <
            env.errorThreshold * env.errorThreshold
          then [splitFitA env i t c idx] else [])) ++
      (if (splitFitB env i t c idx).error / env.lengthFromTo i idx <
          env.errorThreshold * env.errorThreshold
        then [splitFitB env i t c idx] else []) ∧
    ∀ z, visitedPair { env with zeroCurvCurve := z } i t = visitedPair env i t :=
  ⟨chunkAt_split_form env i t c idx hia hsig,
    fun z => visited_zeroCurv_invariant env i t z (circIndices env i) 0⟩

theorem inflection_split_emission_witness :
    splitEnv.inflectionAccounting = true ∧
    visitedPair { splitEnv with zeroCurvCurve := fun _ _ _ => zeroA } 0 2 =
      visitedPair splitEnv 0 2 :=
  ⟨rfl, (inflection_split_emission splitEnv 0 2 4 3 rfl splitEnv_signs_differ).2 _⟩

/-- C3 (counterexample): a split candidate whose error over the span equals
the squared threshold passes the claim's non-strict test but is not emitted —
the code's comparison on line 192 is strict. -/
theorem inflection_split_threshold_counterexample : ¬ claimC3 := by
  intro h
  have hmem : mainFitAt splitEnv 0 2 4 3 ∈ primitivesFor splitEnv 0 2 := by
    rw [splitEnv_primitives]
    exact List.mem_cons_self _ _
  have hiff := (h splitEnv 0 2 4 3 rfl hmem splitEnv_signs_differ).1
  have hle : (splitFitA splitEnv 0 2 4 3).error / splitEnv.lengthFromTo 0 3 ≤
      splitEnv.errorThreshold * splitEnv.errorThreshold := by
    rw [splitFitA_splitEnv_val]
    norm_num [splitEnv]
  have hmem2 := hiff.mpr hle
  rw [splitEnv_primitives, splitFitA_splitEnv_val, splitFitB_splitEnv_val, clothFit_val] at hmem2
  norm_num [zeroA, FitPrimitive.mk.injEq, CurvePrimitive.mk.injEq] at hmem2

theorem candidate_min_points_witness :
    clothFit ∈ primitivesFor splitEnv 0 2 ∧ clothFit.curve.type + 2 ≤ clothFit.numPts :=
  ⟨by rw [splitEnv_primitives]; exact List.mem_cons_self _ _,
    candidate_min_points splitEnv 0 2 (by omega)
      (fun t' i' k => by by_cases h : t' = 2 <;> simp [splitEnv, h])
      (fun a b off => rfl) (fun cu a b s e => rfl) clothFit
      (by rw [splitEnv_primitives]; exact List.mem_cons_self _ _)⟩
